import Mathlib

/-!
Verification of the cronwtf cron-expression engine.

The JavaScript source (src/core/parser.js, src/core/generator.js,
src/core/converter.js) is shallowly embedded here.  JavaScript strings are
modeled as `List Char`; JavaScript numbers that can be NaN are modeled by the
two-constructor type `JsNum`.  JavaScript functions whose internal `for` loop
can fail to terminate (the step loop of `parseField` with a non-positive step)
are modeled as `Option`-valued functions where `none` means the original
program diverges; the fuel lemmas below prove that the chosen fuel values make
the embedding exact (the computed value is the limit of the fuel-indexed
approximations, and `none` is returned exactly when no amount of fuel
suffices).
-/

/-- Strings of the JavaScript program, as lists of characters. -/
abbrev Str := List Char

namespace CronWtf

set_option maxRecDepth 8000

/-- ASCII lowercasing of one character, the effect of `toLowerCase` on the
character sets used by the program. -/
def lowerChar (c : Char) : Char :=
  if 'A' ≤ c ∧ c ≤ 'Z' then Char.ofNat (c.toNat + 32) else c

/-- Model of `String.prototype.toLowerCase` for ASCII input. -/
def toLowerStr (s : Str) : Str := s.map lowerChar

/-- Whitespace test matching the JavaScript `\s` class on ASCII input. -/
def isWs (c : Char) : Bool :=
  c = ' ' ∨ c = '\t' ∨ c = '\n' ∨ c = '\r' ∨ c = '\x0b' ∨ c = '\x0c'

/-- Model of `String.prototype.trim`. -/
def trimStr (s : Str) : Str :=
  ((s.dropWhile isWs).reverse.dropWhile isWs).reverse

/-- Decimal digit test, the JavaScript `\d` class. -/
def isDigitCh (c : Char) : Bool := '0' ≤ c ∧ c ≤ '9'

/-- Word-character test, the JavaScript `\w` class. -/
def isWordCh (c : Char) : Bool :=
  isDigitCh c ∨ ('a' ≤ c ∧ c ≤ 'z') ∨ ('A' ≤ c ∧ c ≤ 'Z') ∨ c = '_'

/-- Model of `String.prototype.split` with a single-character separator:
every occurrence of the separator splits, empty pieces are kept, and the
empty string splits to one empty piece. -/
def splitCh (sep : Char) : Str → List Str
  | [] => [[]]
  | c :: rest =>
    let r := splitCh sep rest
    if c = sep then [] :: r
    else match r with
      | [] => [[c]]
      | p :: ps => (c :: p) :: ps

/-- Model of splitting on the regular expression whitespace run `\s+` as the
program applies it to an already trimmed string: maximal runs of
non-whitespace characters, with the JavaScript special case that the empty
string yields one empty token. -/
def splitWs (s : Str) : List Str :=
  match s with
  | [] => [[]]
  | _ =>
    let rec go : Str → Str → List Str
      | acc, [] => if acc.isEmpty then [] else [acc.reverse]
      | acc, c :: rest =>
        if isWs c then
          if acc.isEmpty then go [] rest else acc.reverse :: go [] rest
        else go (c :: acc) rest
    go [] s

/-- Substring containment, the model of `String.prototype.includes`. -/
def containsStr (s pat : Str) : Bool :=
  match s with
  | [] => pat.isEmpty
  | _ :: rest => pat.isPrefixOf s || containsStr rest pat

/-- Character containment inside a string. -/
def containsCh (s : Str) (c : Char) : Bool := s.contains c

/-- Model of `String.prototype.startsWith` for a one-character prefix. -/
def startsWithCh (s : Str) (c : Char) : Bool :=
  match s with
  | [] => false
  | d :: _ => d = c

/-- One pass of global substring replacement.  The fuel argument bounds the
number of characters consumed; `replaceAll` below always supplies the length
of the subject string, which `replaceAllAux_fuel` proves sufficient. -/
def replaceAllAux (pat repl : Str) : Nat → Str → Str
  | _, [] => []
  | 0, s => s
  | fuel + 1, c :: rest =>
    if pat.isPrefixOf (c :: rest) then
      repl ++ replaceAllAux pat repl fuel ((c :: rest).drop pat.length)
    else
      c :: replaceAllAux pat repl fuel rest

/-- Model of `String.prototype.replace` with a global literal pattern, as the
field parser uses it for month and weekday names.  An empty pattern is never
supplied by the program; it is mapped to the identity. -/
def replaceAll (pat repl s : Str) : Str :=
  if pat.isEmpty then s else replaceAllAux pat repl s.length s

theorem replaceAllAux_fuel (pat repl : Str) (hp : pat ≠ []) :
    ∀ fuel s, s.length ≤ fuel →
      replaceAllAux pat repl fuel s = replaceAllAux pat repl s.length s := by
  intro fuel
  induction fuel using Nat.strong_induction_on with
  | _ fuel ih =>
    intro s hs
    cases s with
    | nil => cases fuel <;> rfl
    | cons c rest =>
      cases fuel with
      | zero => simp at hs
      | succ f =>
        have hplen : 1 ≤ pat.length := by
          cases pat with
          | nil => exact absurd rfl hp
          | cons a l => simp
        simp only [List.length_cons] at hs
        simp only [List.length_cons]
        simp only [replaceAllAux]
        cases hpre : pat.isPrefixOf (c :: rest) with
        | true =>
          simp only [if_true]
          have hdrop : ((c :: rest).drop pat.length).length ≤ f := by
            simp only [List.length_drop, List.length_cons]
            omega
          have hdrop2 : ((c :: rest).drop pat.length).length ≤ rest.length := by
            simp only [List.length_drop, List.length_cons]
            omega
          rw [ih f (Nat.lt_succ_self _) _ hdrop]
          rw [ih rest.length (by omega) _ hdrop2]
        | false =>
          simp only [Bool.false_eq_true, if_false]
          rw [ih f (Nat.lt_succ_self _) rest (by omega)]

/-- JavaScript numbers as the program uses them: an integer or NaN. -/
inductive JsNum where
  | int (n : Int)
  | nan
deriving DecidableEq, Repr

namespace JsNum

/-- JavaScript `<` where any comparison against NaN is false. -/
def lt : JsNum → JsNum → Bool
  | .int a, .int b => a < b
  | _, _ => false

/-- JavaScript `>` where any comparison against NaN is false. -/
def gt : JsNum → JsNum → Bool
  | .int a, .int b => a > b
  | _, _ => false

/-- JavaScript `<=` where any comparison against NaN is false. -/
def le : JsNum → JsNum → Bool
  | .int a, .int b => a ≤ b
  | _, _ => false

end JsNum

/-- Digits prefix value: folds decimal digits into a natural number. -/
def digitsToNat (ds : Str) : Nat :=
  ds.foldl (fun acc c => acc * 10 + (c.toNat - 48)) 0

/-- Model of `parseInt(s, 10)`: skip leading whitespace, read an optional
sign, then a maximal run of decimal digits; no digits yields NaN, and any
trailing garbage is ignored. -/
def jsParseInt (s : Str) : JsNum :=
  let s1 := s.dropWhile isWs
  let core : Str → JsNum := fun t =>
    let ds := t.takeWhile isDigitCh
    if ds.isEmpty then .nan else .int (digitsToNat ds)
  match s1 with
  | '-' :: rest =>
    (match (rest.takeWhile isDigitCh).isEmpty with
     | true => .nan
     | false => .int (-(digitsToNat (rest.takeWhile isDigitCh))))
  | '+' :: rest => core rest
  | _ => core s1

/-- Decimal rendering of a natural number, with fuel (always sufficient,
since the number of digits is at most the value plus one). -/
def natToStrAux : Nat → Nat → Str
  | 0, _ => []
  | fuel + 1, n =>
    if n < 10 then [Char.ofNat (48 + n)]
    else natToStrAux fuel (n / 10) ++ [Char.ofNat (48 + n % 10)]

/-- Decimal rendering of a natural number. -/
def natToStr (n : Nat) : Str := natToStrAux (n + 1) n

/-- Model of JavaScript number-to-string conversion on integers. -/
def intToStr (n : Int) : Str :=
  if n < 0 then '-' :: natToStr (-n).toNat else natToStr n.toNat

/-- Model of JavaScript number-to-string conversion on `JsNum`, where NaN
prints as the literal text NaN. -/
def jsNumToStr : JsNum → Str
  | .int n => intToStr n
  | .nan => "NaN".data

/-- Model of `Array.prototype.join` with a separator string. -/
def joinStr (sep : Str) : List Str → Str
  | [] => []
  | [x] => x
  | x :: xs => x ++ sep ++ joinStr sep xs

/-- Fuel-indexed approximation of the loop `for (i; i <= hi; i += st)` over
integers: `none` means the fuel ran out before the exit test succeeded.  The
lemmas `loopIntsF_mono`, `loopIntsF_isSome_of_pos` and
`loopIntsF_none_of_nonpos` show that the fuel chosen by `forRun` computes the
exact result when the loop terminates and `none` exactly when it does not. -/
def loopIntsF (hi st : Int) : Nat → Int → Option (List Int)
  | 0, _ => none
  | fuel + 1, i =>
    if i > hi then some []
    else (loopIntsF hi st fuel (i + st)).map (fun l => i :: l)

theorem loopIntsF_mono (hi st : Int) :
    ∀ fuel i l, loopIntsF hi st fuel i = some l →
      loopIntsF hi st (fuel + 1) i = some l := by
  intro fuel
  induction fuel with
  | zero => intro i l h; simp [loopIntsF] at h
  | succ f ih =>
    intro i l h
    have hu1 : loopIntsF hi st (f + 1) i
        = if i > hi then some []
          else (loopIntsF hi st f (i + st)).map (fun l => i :: l) := rfl
    have hu2 : loopIntsF hi st (f + 1 + 1) i
        = if i > hi then some []
          else (loopIntsF hi st (f + 1) (i + st)).map (fun l => i :: l) := rfl
    rw [hu1] at h
    rw [hu2]
    by_cases hgt : i > hi
    · simpa [hgt] using h
    · simp only [hgt, if_false] at h ⊢
      cases hrec : loopIntsF hi st f (i + st) with
      | none => rw [hrec] at h; simp at h
      | some l2 =>
        rw [hrec] at h
        rw [ih _ _ hrec]
        exact h

theorem loopIntsF_le_mono (hi st : Int) (fuel1 fuel2 : Nat) (hle : fuel1 ≤ fuel2)
    (i : Int) (l : List Int) (h : loopIntsF hi st fuel1 i = some l) :
    loopIntsF hi st fuel2 i = some l := by
  induction fuel2 with
  | zero =>
    have : fuel1 = 0 := Nat.le_zero.mp hle
    subst this; exact h
  | succ f ih =>
    rcases Nat.lt_or_ge fuel1 (f + 1) with hlt | hge
    · exact loopIntsF_mono hi st f i l (ih (Nat.lt_succ_iff.mp hlt))
    · have : fuel1 = f + 1 := Nat.le_antisymm hle hge
      subst this; exact h

theorem loopIntsF_isSome_of_pos (hi st : Int) (hst : 1 ≤ st) :
    ∀ fuel i, (hi + 1 - i).toNat < fuel → (loopIntsF hi st fuel i).isSome := by
  intro fuel
  induction fuel with
  | zero => intro i h; omega
  | succ f ih =>
    intro i h
    simp only [loopIntsF]
    by_cases hgt : i > hi
    · simp [hgt]
    · simp only [hgt, if_false]
      have : (hi + 1 - (i + st)).toNat < f := by omega
      have hs := ih (i + st) this
      cases hrec : loopIntsF hi st f (i + st) with
      | none => rw [hrec] at hs; simp at hs
      | some l => simp

theorem loopIntsF_none_of_nonpos (hi st : Int) (hst : st ≤ 0) :
    ∀ fuel i, i ≤ hi → loopIntsF hi st fuel i = none := by
  intro fuel
  induction fuel with
  | zero => intro i _; rfl
  | succ f ih =>
    intro i hle
    simp only [loopIntsF]
    have hgt : ¬(i > hi) := by omega
    simp only [hgt, if_false]
    rw [ih (i + st) (by omega)]
    rfl

/-- Semantics of the loop `for (i; i <= hi; i += st)` collecting the visited
indices: returns the visited list when the loop terminates and `none` when it
runs forever (a non-positive integer step with the entry test true).  The
fuel passed to `loopIntsF` is sufficient for every terminating case by
`loopIntsF_isSome_of_pos`, and by `loopIntsF_none_of_nonpos` no fuel is
sufficient in the divergent case. -/
def forRun (hi st i : Int) : Option (List Int) :=
  loopIntsF hi st ((hi + 1 - i).toNat + 1) i

/-- Loop bounds as the program computes them may be NaN; any comparison with
NaN is false, so a NaN entry bound or limit exits immediately, and a NaN step
makes the second entry test false after one iteration. -/
def forLoop (hi st i : JsNum) : Option (List Int) :=
  match i, hi with
  | .nan, _ => some []
  | .int _, .nan => some []
  | .int iv, .int hv =>
    match st with
    | .nan => some (if iv ≤ hv then [iv] else [])
    | .int sv => forRun hv sv iv

/-- Insertion into a JavaScript `Set`: keyed on SameValueZero (so NaN equals
NaN), keeping the first insertion position. -/
def setAdd (s : List JsNum) (x : JsNum) : List JsNum :=
  if s.contains x then s else s ++ [x]

/-- One insertion step of the stable sort with the comparator
`(a, b) => a - b`, where a NaN comparator value is treated as zero (the
ECMAScript sort moves an element before another only on a negative
comparator result). -/
def sortInsert (x : JsNum) : List JsNum → List JsNum
  | [] => [x]
  | y :: ys => if JsNum.gt y x then x :: y :: ys else y :: sortInsert x ys

/-- Model of `Array.from(set).sort((a, b) => a - b)`: a stable sort in which
NaN compares equal to everything. -/
def jsSort (l : List JsNum) : List JsNum :=
  l.foldl (fun acc x => sortInsert x acc) []

/-- Names of the five cron field positions; the JavaScript identity test
`def === FIELDS.dayOfWeek` is modeled by comparing this tag, which is
distinct for each of the five field-definition objects the program ever
constructs. -/
inductive FieldName where
  | minute | hour | dayOfMonth | month | dayOfWeek
deriving DecidableEq, Repr

/-- Field definition record, from the FIELDS table of parser.js. -/
structure FieldDef where
  fname : FieldName
  min : Int
  max : Int
  names : List Str
deriving DecidableEq, Repr

namespace FIELDS

/-- FIELDS.minute of parser.js. -/
def minute : FieldDef := ⟨.minute, 0, 59, []⟩

/-- FIELDS.hour of parser.js. -/
def hour : FieldDef := ⟨.hour, 0, 23, []⟩

/-- FIELDS.dayOfMonth of parser.js. -/
def dayOfMonth : FieldDef := ⟨.dayOfMonth, 1, 31, []⟩

/-- FIELDS.month of parser.js. -/
def month : FieldDef :=
  ⟨.month, 1, 12,
    ["jan".data, "feb".data, "mar".data, "apr".data, "may".data, "jun".data,
     "jul".data, "aug".data, "sep".data, "oct".data, "nov".data, "dec".data]⟩

/-- FIELDS.dayOfWeek of parser.js; both 0 and 7 denote Sunday. -/
def dayOfWeek : FieldDef :=
  ⟨.dayOfWeek, 0, 7,
    ["sun".data, "mon".data, "tue".data, "wed".data, "thu".data, "fri".data,
     "sat".data]⟩

end FIELDS

/-- Parsed field record, the return value of parseField. -/
structure ParsedField where
  values : List JsNum
  raw : Str
  description : Str
  outOfRange : List JsNum
deriving DecidableEq, Repr

/-- Name substitution pass of parseField: for each named value, globally
replace the name by its integer text (index for dayOfWeek, index plus one
otherwise), sequentially over the names list. -/
def substNames (d : FieldDef) (s : Str) : Str :=
  d.names.enum.foldl
    (fun acc p =>
      let value : Int := if d.fname = FieldName.dayOfWeek then (p.1 : Int) else (p.1 : Int) + 1
      replaceAll p.2 (intToStr value) acc) s

/-- Destructuring `const [range, step] = segment.split('/')`. -/
def segmentParts (seg : Str) : Str × Option Str :=
  match splitCh '/' seg with
  | [] => ([], none)
  | [r] => (r, none)
  | r :: st :: _ => (r, some st)

/-- Mutable state of the segment loop in parseField. -/
structure SegState where
  values : List JsNum
  parts : List Str
  outOfRange : List JsNum

/-- One iteration of the segment loop of parseField.  Divergence of the
inner numeric loop (non-positive explicit step with a satisfiable bound)
propagates as `none`. -/
def processSegment (d : FieldDef) (st : SegState) (segment : Str) : Option SegState :=
  let rs := segmentParts segment
  let range := rs.1
  let step := rs.2
  let stepTruthy : Bool := match step with
    | none => false
    | some s => !s.isEmpty
  let stepNum : JsNum := match step with
    | none => .int 1
    | some s => if s.isEmpty then .int 1 else jsParseInt s
  if range = "*".data then
    match forLoop (.int d.max) stepNum (.int d.min) with
    | none => none
    | some visited =>
      some { values := visited.foldl (fun vs i => setAdd vs (.int i)) st.values
             parts := st.parts ++
               [if stepTruthy then "every ".data ++ jsNumToStr stepNum else "every".data]
             outOfRange := st.outOfRange }
  else if containsCh range '-' then
    let rparts := splitCh '-' range
    let startNum := jsParseInt (rparts.headD [])
    let endNum := jsParseInt ((rparts.drop 1).headD [])
    let oor := st.outOfRange ++
      (if JsNum.lt startNum (.int d.min) ∨ JsNum.gt startNum (.int d.max)
       then [startNum] else []) ++
      (if JsNum.lt endNum (.int d.min) ∨ JsNum.gt endNum (.int d.max)
       then [endNum] else [])
    match forLoop endNum stepNum startNum with
    | none => none
    | some visited =>
      let adds := (visited.filter (fun i => decide (d.min ≤ i ∧ i ≤ d.max))).map
        (fun i => if i = 7 ∧ d.fname = FieldName.dayOfWeek then JsNum.int 0 else JsNum.int i)
      some { values := adds.foldl setAdd st.values
             parts := st.parts ++
               [if stepTruthy then
                  jsNumToStr startNum ++ "-".data ++ jsNumToStr endNum ++
                    " every ".data ++ jsNumToStr stepNum
                else jsNumToStr startNum ++ "-".data ++ jsNumToStr endNum]
             outOfRange := oor }
  else
    let originalVal := jsParseInt range
    let val := if originalVal = JsNum.int 7 ∧ d.fname = FieldName.dayOfWeek
      then JsNum.int 0 else originalVal
    let bad : Bool :=
      JsNum.lt originalVal (.int d.min) ∨
        (JsNum.gt originalVal (.int d.max) ∧
          ¬(d.fname = FieldName.dayOfWeek ∧ originalVal = JsNum.int 7))
    some { values := if bad then st.values else setAdd st.values val
           parts := st.parts ++ [jsNumToStr originalVal]
           outOfRange := if bad then st.outOfRange ++ [originalVal] else st.outOfRange }

/-- Model of parseField of parser.js: parse a single cron field against its
field definition.  Returns `none` exactly when the JavaScript function would
loop forever. -/
def parseField (field : Str) (d : FieldDef) : Option ParsedField :=
  let normalizedField := substNames d (toLowerStr field)
  let segments := splitCh ',' normalizedField
  match segments.foldl (fun acc seg => acc.bind (fun st => processSegment d st seg))
      (some ⟨[], [], []⟩) with
  | none => none
  | some st =>
    some { values := jsSort st.values
           raw := field
           description := joinStr ", ".data st.parts
           outOfRange := st.outOfRange }

/-- Parsed-field map of a full expression, one entry per canonical field in
FIELD_ORDER. -/
structure CronFields where
  minute : ParsedField
  hour : ParsedField
  dayOfMonth : ParsedField
  month : ParsedField
  dayOfWeek : ParsedField
deriving DecidableEq, Repr

/-- Result object of parse.  Absent JavaScript properties are modeled by
`none` or by the empty list. -/
structure ParsedExpr where
  valid : Bool
  isReboot : Bool := false
  fields : Option CronFields := none
  original : Str := []
  errors : List Str := []
  error : Option Str := none
  suggestion : Option Str := none
  description : Option Str := none
deriving DecidableEq, Repr

/-- Alias table of parser.js; the @reboot entry maps to null and is handled
before this table is consulted. -/
def ALIASES : List (Str × Str) :=
  [("@yearly".data, "0 0 1 1 *".data),
   ("@annually".data, "0 0 1 1 *".data),
   ("@monthly".data, "0 0 1 * *".data),
   ("@weekly".data, "0 0 * * 0".data),
   ("@daily".data, "0 0 * * *".data),
   ("@midnight".data, "0 0 * * *".data),
   ("@hourly".data, "0 * * * *".data)]

/-- Lookup in the alias table. -/
def aliasLookup (a : Str) : Option Str :=
  (ALIASES.find? (fun p => decide (p.1 = a))).map (fun p => p.2)

/-- Human-readable field labels, the FIELD_NAMES table of parser.js. -/
def FIELD_NAMES (f : FieldName) : Str :=
  match f with
  | .minute => "minute".data
  | .hour => "hour".data
  | .dayOfMonth => "day of month".data
  | .month => "month".data
  | .dayOfWeek => "day of week".data

/-- Per-field error text for out-of-range values, as parse formats it. -/
def rangeErrMsg (fn : FieldName) (pf : ParsedField) : Str :=
  FIELD_NAMES fn ++ ": values out of range (".data ++
    joinStr ", ".data (pf.outOfRange.map jsNumToStr) ++ ")".data

/-- Field map as the ordered association list FIELD_ORDER iterates over. -/
def fieldPairs (flds : CronFields) : List (FieldName × ParsedField) :=
  [(.minute, flds.minute), (.hour, flds.hour), (.dayOfMonth, flds.dayOfMonth),
   (.month, flds.month), (.dayOfWeek, flds.dayOfWeek)]

/-- Non-alias path of parse: split on whitespace, accept 5 or 6 tokens
(dropping a leading seconds token), parse each canonical field, and
accumulate one error per field with out-of-range values.  The first argument
is the original expression text stored in the result. -/
def parseMain (original trimmed : Str) : Option ParsedExpr :=
  let parts := splitWs trimmed
  if parts.length < 5 ∨ parts.length > 6 then
    some { valid := false
           error := some ("Invalid field count: expected 5, got ".data ++
             natToStr parts.length)
           suggestion := some "Format: minute hour day-of-month month day-of-week".data }
  else
    let fields := if parts.length = 6 then parts.drop 1 else parts
    match fields with
    | f0 :: f1 :: f2 :: f3 :: f4 :: _ =>
      (parseField f0 FIELDS.minute).bind fun p0 =>
      (parseField f1 FIELDS.hour).bind fun p1 =>
      (parseField f2 FIELDS.dayOfMonth).bind fun p2 =>
      (parseField f3 FIELDS.month).bind fun p3 =>
      (parseField f4 FIELDS.dayOfWeek).bind fun p4 =>
      let flds : CronFields := ⟨p0, p1, p2, p3, p4⟩
      let errs := (fieldPairs flds).filterMap
        (fun pr => if pr.2.outOfRange.isEmpty then none else some (rangeErrMsg pr.1 pr.2))
      some { valid := errs.isEmpty
             original := original
             fields := some flds
             errors := errs }
    | _ => none

/-- Model of parse of parser.js.  Returns `none` exactly when the JavaScript
function would loop forever inside parseField. -/
def parse (expression : Str) : Option ParsedExpr :=
  let trimmed := trimStr expression
  if startsWithCh trimmed '@' then
    let al := toLowerStr trimmed
    if al = "@reboot".data then
      some { valid := true
             isReboot := true
             fields := none
             description := some "Run once at system startup".data }
    else
      match aliasLookup al with
      | some expansion => parseMain expansion (trimStr expansion)
      | none =>
        some { valid := false
               error := some ("Unknown alias: ".data ++ al)
               suggestion := some ("Valid aliases: @yearly, @annually, @monthly, @weekly, @daily, @midnight, @hourly, @reboot".data) }
  else parseMain expression trimmed

/-- Abstract calendar: the civil-calendar field decomposition that luxon
computes for a given timezone.  Instants are modeled at minute granularity
as natural-number minute indices; the five projections give the local
minute-of-hour, hour-of-day, day-of-month, month, and luxon weekday
(1 = Monday .. 7 = Sunday) of a minute index.  The scheduler theorems hold
for every calendar, so nothing about the real civil calendar is assumed. -/
structure Calendar where
  minute : Nat → Int
  hour : Nat → Int
  day : Nat → Int
  month : Nat → Int
  weekday : Nat → Int

/-- Day clause of the scheduler (parser.js lines 249-265): POSIX cron
disjunction between day-of-month and day-of-week membership, keyed on
whether each raw field text is exactly the wildcard. -/
def dayMatch (flds : CronFields) (dom dow : Int) : Bool :=
  let domAll := flds.dayOfMonth.raw = "*".data
  let dowAll := flds.dayOfWeek.raw = "*".data
  if domAll ∧ dowAll then true
  else if domAll then flds.dayOfWeek.values.contains (.int dow)
  else if dowAll then flds.dayOfMonth.values.contains (.int dom)
  else
    flds.dayOfMonth.values.contains (.int dom) ||
      flds.dayOfWeek.values.contains (.int dow)

/-- Candidate test of the scheduler loop body: minute, hour, day clause and
month must all match, with the luxon weekday folded to the 0 = Sunday
convention by the remainder modulo 7. -/
def matchesAt (flds : CronFields) (cal : Calendar) (t : Nat) : Bool :=
  let minuteMatch := flds.minute.values.contains (JsNum.int (cal.minute t))
  let hourMatch := flds.hour.values.contains (JsNum.int (cal.hour t))
  let monthMatch := flds.month.values.contains (JsNum.int (cal.month t))
  let dm := dayMatch flds (cal.day t) (cal.weekday t % 7)
  minuteMatch && hourMatch && dm && monthMatch

/-- Iteration ceiling of the scheduler: one year of minutes. -/
def maxIterations : Nat := 366 * 24 * 60

/-- The while loop of getNextOccurrences: walk forward one minute at a time,
collecting matching minute indices, until the requested count is reached or
the fuel (iteration ceiling) is exhausted.  Written with a bare recursor so
that evaluation of the large literal ceiling unfolds lazily. -/
def schedLoop (m : Nat → Bool) (fuel : Nat) : Nat → Nat → List Nat :=
  Nat.rec (motive := fun _ => Nat → Nat → List Nat)
    (fun _ _ => [])
    (fun _ ih cur count =>
      if count = 0 then []
      else if m cur then cur :: ih (cur + 1) (count - 1)
      else ih (cur + 1) count)
    fuel

theorem schedLoop_zero (m : Nat → Bool) (cur count : Nat) :
    schedLoop m 0 cur count = [] := rfl

theorem schedLoop_succ (m : Nat → Bool) (fuel cur count : Nat) :
    schedLoop m (fuel + 1) cur count =
      if count = 0 then []
      else if m cur then cur :: schedLoop m fuel (cur + 1) (count - 1)
      else schedLoop m fuel (cur + 1) count := rfl

/-- Model of getNextOccurrences of parser.js.  The `from` option is an
instant inside minute index `fromMin`; the first candidate examined is
`fromMin + 1`, the effect of `plus 1 minute` followed by `startOf minute`.
The timezone option is absorbed into the calendar argument.  Returns `none`
exactly when parse diverges. -/
def getNextOccurrences (expression : Str) (count : Nat) (cal : Calendar)
    (fromMin : Nat) : Option (List Nat) :=
  match parse expression with
  | none => none
  | some parsed =>
    if !parsed.valid || parsed.isReboot then some []
    else
      match parsed.fields with
      | none => some []
      | some flds =>
        some (schedLoop (matchesAt flds cal) maxIterations (fromMin + 1) count)

theorem schedLoop_length_le (m : Nat → Bool) :
    ∀ fuel cur count, (schedLoop m fuel cur count).length ≤ count := by
  intro fuel
  induction fuel with
  | zero => intro cur count; simp [schedLoop_zero]
  | succ f ih =>
    intro cur count
    rw [schedLoop_succ]
    by_cases hc : count = 0
    · simp [hc]
    · simp only [hc, if_false]
      by_cases hm : m cur
      · simp only [hm, if_true, List.length_cons]
        have := ih (cur + 1) (count - 1)
        omega
      · simp only [hm, Bool.false_eq_true, if_false]
        have := ih (cur + 1) count
        omega

theorem schedLoop_mem_ge (m : Nat → Bool) :
    ∀ fuel cur count t, t ∈ schedLoop m fuel cur count → cur ≤ t := by
  intro fuel
  induction fuel with
  | zero => intro cur count t h; rw [schedLoop_zero] at h; simp at h
  | succ f ih =>
    intro cur count t h
    rw [schedLoop_succ] at h
    by_cases hc : count = 0
    · simp [hc] at h
    · simp only [hc, if_false] at h
      by_cases hm : m cur
      · simp only [hm, if_true, List.mem_cons] at h
        rcases h with h | h
        · omega
        · have := ih (cur + 1) (count - 1) t h
          omega
      · simp only [hm, Bool.false_eq_true, if_false] at h
        have := ih (cur + 1) count t h
        omega

theorem schedLoop_pairwise (m : Nat → Bool) :
    ∀ fuel cur count, (schedLoop m fuel cur count).Pairwise (· < ·) := by
  intro fuel
  induction fuel with
  | zero => intro cur count; simp [schedLoop_zero]
  | succ f ih =>
    intro cur count
    rw [schedLoop_succ]
    by_cases hc : count = 0
    · simp [hc]
    · simp only [hc, if_false]
      by_cases hm : m cur
      · simp only [hm, if_true]
        refine List.pairwise_cons.mpr ⟨?_, ih (cur + 1) (count - 1)⟩
        intro t ht
        have := schedLoop_mem_ge m f (cur + 1) (count - 1) t ht
        omega
      · simp only [hm, Bool.false_eq_true, if_false]
        exact ih (cur + 1) count

namespace JsNum

/-- JavaScript `>=` where any comparison against NaN is false. -/
def ge : JsNum → JsNum → Bool
  | .int a, .int b => a ≥ b
  | _, _ => false

/-- Subtraction of an integer constant, NaN absorbing. -/
def sub (a : JsNum) (n : Int) : JsNum :=
  match a with
  | .int v => .int (v - n)
  | .nan => .nan

end JsNum

/-- Rendering of a possibly undefined string inside a template literal:
undefined prints as the literal text undefined. -/
def tmplStr (o : Option Str) : Str := o.getD "undefined".data

/-- Rendering of a possibly undefined string inside `Array.prototype.join`:
undefined prints as the empty string. -/
def joinElemStr (o : Option Str) : Str := o.getD []

/-- Month names table of describe, with the empty placeholder at index 0;
an index outside the table yields undefined. -/
def monthNameAt (j : JsNum) : Option Str :=
  let monthNames : List Str :=
    ["".data, "January".data, "February".data, "March".data, "April".data,
     "May".data, "June".data, "July".data, "August".data, "September".data,
     "October".data, "November".data, "December".data]
  match j with
  | .int n => if 0 ≤ n then monthNames.get? n.toNat else none
  | .nan => none

/-- Day names table of describe; an index outside the table yields
undefined. -/
def dayNameAt (j : JsNum) : Option Str :=
  let dayNames : List Str :=
    ["Sunday".data, "Monday".data, "Tuesday".data, "Wednesday".data,
     "Thursday".data, "Friday".data, "Saturday".data]
  match j with
  | .int n => if 0 ≤ n then dayNames.get? n.toNat else none
  | .nan => none

/-- Step suffix of a raw field text, `raw.split('/')[1]`, as describe reads
it back for the every-K wording. -/
def rawStep (raw : Str) : Str :=
  ((splitCh '/' raw).drop 1).headD []

/-- Minute clause of describe. -/
def describeMinute (pf : ParsedField) : Str :=
  if pf.raw = "*".data then "Every minute".data
  else if pf.values.length = 1 then
    "At minute ".data ++ jsNumToStr (pf.values.headD .nan)
  else if containsCh pf.raw '/' then
    "Every ".data ++ rawStep pf.raw ++ " minutes".data
  else
    "At minutes ".data ++ joinStr ", ".data (pf.values.map jsNumToStr)

/-- Hour clause of describe, absent for a wildcard hour field. -/
def describeHour (pf : ParsedField) : Option Str :=
  if pf.raw = "*".data then none
  else if pf.values.length = 1 then
    let h := pf.values.headD .nan
    let ampm := if JsNum.ge h (.int 12) then "PM".data else "AM".data
    let h12 := if h = JsNum.int 0 then JsNum.int 12
      else if JsNum.gt h (.int 12) then JsNum.sub h 12 else h
    some ("at ".data ++ jsNumToStr h12 ++ ampm)
  else if containsCh pf.raw '/' then
    some ("every ".data ++ rawStep pf.raw ++ " hours".data)
  else
    some ("during hours ".data ++ joinStr ", ".data (pf.values.map jsNumToStr))

/-- Day-of-month clause of describe, absent for a wildcard field. -/
def describeDayOfMonth (pf : ParsedField) : Option Str :=
  if pf.raw = "*".data then none
  else if pf.values.length = 1 then
    some ("on day ".data ++ jsNumToStr (pf.values.headD .nan))
  else
    some ("on days ".data ++ joinStr ", ".data (pf.values.map jsNumToStr))

/-- Month clause of describe, absent for a wildcard field. -/
def describeMonth (pf : ParsedField) : Option Str :=
  if pf.raw = "*".data then none
  else
    let names := pf.values.map monthNameAt
    some ("in ".data ++ joinStr ", ".data (names.map joinElemStr))

/-- Day-of-week clause of describe, absent for a wildcard field; collapses
the Monday-Friday set to weekdays and the Saturday-Sunday pair to
weekends. -/
def describeDayOfWeek (pf : ParsedField) : Option Str :=
  if pf.raw = "*".data then none
  else
    let names := pf.values.map dayNameAt
    if names.length = 1 then
      some ("on ".data ++ tmplStr (names.headD none))
    else if names.length = 5 ∧ ¬names.contains (some "Saturday".data) ∧
        ¬names.contains (some "Sunday".data) then
      some "on weekdays".data
    else if names.length = 2 ∧ names.contains (some "Saturday".data) ∧
        names.contains (some "Sunday".data) then
      some "on weekends".data
    else
      some ("on ".data ++ joinStr ", ".data (names.map joinElemStr))

/-- Model of describe of parser.js: English rendering of an expression.
Returns `none` exactly when parse diverges. -/
def describe (expression : Str) : Option Str :=
  match parse expression with
  | none => none
  | some parsed =>
    if !parsed.valid then
      some ("Invalid: ".data ++
        (match parsed.error with
         | some e => e
         | none => joinStr ", ".data parsed.errors))
    else if parsed.isReboot then
      some "Run once at system startup".data
    else
      match parsed.fields with
      | none => some []
      | some fields =>
        let parts : List Str :=
          [describeMinute fields.minute] ++
          (describeHour fields.hour).toList ++
          (describeDayOfMonth fields.dayOfMonth).toList ++
          (describeMonth fields.month).toList ++
          (describeDayOfWeek fields.dayOfWeek).toList
        some (joinStr " ".data parts)

/-- Result object of the converter functions.  Absent JavaScript properties
are modeled by `none`. -/
structure ConversionResult where
  success : Bool
  format : Option Str := none
  result : Option Str := none
  error : Option Str := none
  note : Option Str := none
  description : Option Str := none
deriving DecidableEq, Repr

/-- Index of the last occurrence of a character. -/
def lastIndexOfCh (s : Str) (c : Char) : Option Nat :=
  let rec go : Str → Nat → Option Nat → Option Nat
    | [], _, acc => acc
    | d :: rest, i, acc => go rest (i + 1) (if d = c then some i else acc)
  go s 0 none

/-- Attempt of the wrapper pattern at one position: the literal cron
(case-insensitively), optional whitespace, an opening parenthesis, then the
greedy dot-plus capture whose end backtracks to the last closing parenthesis
of the remaining text, with the inner leading-whitespace star giving back
characters only when the capture would otherwise be empty. -/
def cronWrapAt (t : Str) : Option Str :=
  if toLowerStr (t.take 4) = "cron".data then
    match (t.drop 4).dropWhile isWs with
    | '(' :: v =>
      match lastIndexOfCh v ')' with
      | none => none
      | some k =>
        let pre := v.take k
        if pre.isEmpty then none
        else
          let stripped := pre.dropWhile isWs
          some (if stripped.isEmpty then pre.drop (pre.length - 1) else stripped)
    | _ => none
  else none

/-- Leftmost match of the wrapper pattern of fromAws. -/
def cronWrapCapture : Str → Option Str
  | [] => none
  | c :: rest =>
    match cronWrapAt (c :: rest) with
    | some cap => some cap
    | none => cronWrapCapture rest

/-- Per-token day-of-week remapping of fromAws: parseInt of the token
decides; a NaN keeps the token text, a number n becomes 0 when n is 1 and
n - 1 otherwise. -/
def awsDowMapToken (d : Str) : Str :=
  match jsParseInt d with
  | .nan => d
  | .int num => intToStr (if num = 1 then 0 else num - 1)

/-- Model of fromAws of converter.js: unwrap the cron(...) wrapper, require
six fields, drop the year, map question marks to wildcards on both day
fields, and remap the AWS day-of-week numbering back to the standard one
token by token.  Returns `none` exactly when the final describe call
diverges. -/
def fromAws (awsExpr : Str) : Option ConversionResult :=
  match cronWrapCapture awsExpr with
  | none =>
    some { success := false
           error := some "Invalid AWS cron format. Expected: cron(...)".data }
  | some cap =>
    let parts := splitWs (trimStr cap)
    if parts.length ≠ 6 then
      some { success := false
             error := some ("Invalid AWS cron: expected 6 fields, got ".data ++
               natToStr parts.length) }
    else
      let minute := parts.headD []
      let hour := (parts.drop 1).headD []
      let dom0 := (parts.drop 2).headD []
      let month := (parts.drop 3).headD []
      let dow0 := (parts.drop 4).headD []
      let dom := if dom0 = "?".data then "*".data else dom0
      let dow1 := if dow0 = "?".data then "*".data else dow0
      let dow := if dow1 ≠ "*".data then
          joinStr ",".data ((splitCh ',' dow1).map awsDowMapToken)
        else dow1
      let standardCron := minute ++ " ".data ++ hour ++ " ".data ++ dom ++
        " ".data ++ month ++ " ".data ++ dow
      match describe standardCron with
      | none => none
      | some desc =>
        some { success := true
               format := some "cron".data
               result := some standardCron
               description := some desc }

/-- Day-name table of fromSystemd. -/
def systemdDayMap : List (Str × Int) :=
  [("Sun".data, 0), ("Mon".data, 1), ("Tue".data, 2), ("Wed".data, 3),
   ("Thu".data, 4), ("Fri".data, 5), ("Sat".data, 6)]

/-- Field draft mutated by the token loop of fromSystemd. -/
structure SystemdDraft where
  dow : Str
  dom : Str
  month : Str
  hour : Str
  minute : Str

/-- One token of the fromSystemd loop: classified as a day-name list, a
date, or a time, in that order. -/
def systemdToken (d : SystemdDraft) (part : Str) : SystemdDraft :=
  if systemdDayMap.any (fun p => containsStr part p.1) then
    let days := (splitCh ',' part).filterMap
      (fun tok => (systemdDayMap.find? (fun p => decide (p.1 = tok))).map (fun p => p.2))
    if days.length > 0 then
      { d with dow := joinStr ",".data (days.map intToStr) }
    else d
  else if containsCh part '-' ∧ ¬containsCh part ':' then
    let dateParts := splitCh '-' part
    if dateParts.length ≥ 2 then
      let monthPart := (dateParts.drop (dateParts.length - 2)).headD []
      let dayPart := (dateParts.drop (dateParts.length - 1)).headD []
      let d1 := if monthPart ≠ "*".data then { d with month := monthPart } else d
      if dayPart ≠ "*".data then { d1 with dom := dayPart } else d1
    else d
  else if containsCh part ':' then
    let timeParts := splitCh ':' part
    let t0 := timeParts.headD []
    let d1 := if t0 ≠ "*".data then { d with hour := t0 } else d
    if timeParts.length > 1 ∧ (timeParts.drop 1).headD [] ≠ "*".data then
      { d1 with minute := (timeParts.drop 1).headD [] }
    else d1
  else d

/-- Model of fromSystemd of converter.js: six literal presets, else a
heuristic token classification.  Returns `none` exactly when the final
describe call diverges. -/
def fromSystemd (systemdExpr : Str) : Option ConversionResult :=
  let expr := trimStr systemdExpr
  let preset : Option Str :=
    if expr = "minutely".data then some "* * * * *".data
    else if expr = "hourly".data then some "0 * * * *".data
    else if expr = "daily".data then some "0 0 * * *".data
    else if expr = "weekly".data then some "0 0 * * 0".data
    else if expr = "monthly".data then some "0 0 1 * *".data
    else if expr = "yearly".data ∨ expr = "annually".data then some "0 0 1 1 *".data
    else none
  match preset with
  | some r =>
    some { success := true, format := some "cron".data, result := some r }
  | none =>
    let parts := splitWs expr
    let d := parts.foldl systemdToken
      ⟨"*".data, "*".data, "*".data, "*".data, "*".data⟩
    let standardCron := d.minute ++ " ".data ++ d.hour ++ " ".data ++ d.dom ++
      " ".data ++ d.month ++ " ".data ++ d.dow
    match describe standardCron with
    | none => none
    | some desc =>
      some { success := true
             format := some "cron".data
             result := some standardCron
             description := some desc
             note := some "Conversion is best-effort. Some systemd features may not translate.".data }

/-- Model of toCron of converter.js: dispatch on the lowercased source
format.  The quartz and jenkins branches drop the seconds field, keep the
next five tokens, and map question marks to wildcards. -/
def toCron (expression fromFormat : Str) : Option ConversionResult :=
  let fmt := toLowerStr fromFormat
  if fmt = "aws".data then fromAws expression
  else if fmt = "systemd".data then fromSystemd expression
  else if fmt = "quartz".data ∨ fmt = "jenkins".data then
    let parts := splitWs (trimStr expression)
    if parts.length = 6 ∨ parts.length = 7 then
      let cronParts := (parts.drop 1).take 5
      let result := joinStr " ".data
        (cronParts.map (fun p => if p = "?".data then "*".data else p))
      match describe result with
      | none => none
      | some desc =>
        some { success := true
               format := some "cron".data
               result := some result
               description := some desc }
    else some { success := false, error := some "Invalid Quartz/Jenkins format".data }
  else
    some { success := false, error := some ("Unknown format: ".data ++ fromFormat) }

/-- Result object of generate.  Absent JavaScript properties are modeled by
`none`. -/
structure GenerateResult where
  success : Bool
  expression : Option Str := none
  description : Option Str := none
  error : Option Str := none
  suggestion : Option Str := none
deriving DecidableEq, Repr

/-- Ordered phrase table of generator.js; iteration order is part of the
contract (first containment match wins). -/
def PATTERNS : List (Str × Str) :=
  [("every minute".data, "* * * * *".data),
   ("every hour".data, "0 * * * *".data),
   ("hourly".data, "0 * * * *".data),
   ("every day".data, "0 0 * * *".data),
   ("daily".data, "0 0 * * *".data),
   ("every week".data, "0 0 * * 0".data),
   ("weekly".data, "0 0 * * 0".data),
   ("every month".data, "0 0 1 * *".data),
   ("monthly".data, "0 0 1 * *".data),
   ("every year".data, "0 0 1 1 *".data),
   ("yearly".data, "0 0 1 1 *".data),
   ("annually".data, "0 0 1 1 *".data),
   ("at midnight".data, "0 0 * * *".data),
   ("midnight".data, "0 0 * * *".data),
   ("at noon".data, "0 12 * * *".data),
   ("noon".data, "0 12 * * *".data),
   ("weekdays".data, "0 9 * * 1-5".data),
   ("weekends".data, "0 9 * * 0,6".data),
   ("every weekday".data, "0 9 * * 1-5".data),
   ("every weekend".data, "0 9 * * 0,6".data),
   ("business hours".data, "0 9-17 * * 1-5".data),
   ("work hours".data, "0 9-17 * * 1-5".data)]

/-- Key lookup in the phrase table, the model of the property access
`PATTERNS[pattern]`. -/
def patternsLookup (p : Str) : Option Str :=
  (PATTERNS.find? (fun e => decide (e.1 = p))).map (fun e => e.2)

/-- Ordered day-name table of generator.js. -/
def DAYS : List (Str × Int) :=
  [("sunday".data, 0), ("sun".data, 0),
   ("monday".data, 1), ("mon".data, 1),
   ("tuesday".data, 2), ("tue".data, 2),
   ("wednesday".data, 3), ("wed".data, 3),
   ("thursday".data, 4), ("thu".data, 4),
   ("friday".data, 5), ("fri".data, 5),
   ("saturday".data, 6), ("sat".data, 6)]

/-- Ordered month-name table of generator.js. -/
def MONTHS : List (Str × Int) :=
  [("january".data, 1), ("jan".data, 1),
   ("february".data, 2), ("feb".data, 2),
   ("march".data, 3), ("mar".data, 3),
   ("april".data, 4), ("apr".data, 4),
   ("may".data, 5),
   ("june".data, 6), ("jun".data, 6),
   ("july".data, 7), ("jul".data, 7),
   ("august".data, 8), ("aug".data, 8),
   ("september".data, 9), ("sep".data, 9),
   ("october".data, 10), ("oct".data, 10),
   ("november".data, 11), ("nov".data, 11),
   ("december".data, 12), ("dec".data, 12)]

/-- Exact-key lookup in the day table, `DAYS[word]`. -/
def daysLookup (w : Str) : Option Int :=
  (DAYS.find? (fun p => decide (p.1 = w))).map (fun p => p.2)

/-- Anchored 12-hour time pattern attempt with a fixed leading digit count:
digits, an optional colon-minutes pair, optional whitespace, an optional
meridiem, then end of input. -/
def m12At (s : Str) (ndig : Nat) : Option (Int × Int × Option Str) :=
  let ds := s.take ndig
  if ds.length = ndig ∧ ds.all isDigitCh then
    let rest := s.drop ndig
    let cm : Option Str × Str :=
      match rest with
      | ':' :: d1 :: d2 :: r2 =>
        if isDigitCh d1 ∧ isDigitCh d2 then (some [d1, d2], r2) else (none, rest)
      | _ => (none, rest)
    let rest2 := cm.2.dropWhile isWs
    let fin : Option (Option Str) :=
      match rest2 with
      | [] => some none
      | ['a', 'm'] => some (some "am".data)
      | ['p', 'm'] => some (some "pm".data)
      | _ => none
    match fin with
    | none => none
    | some ampm =>
      some ((digitsToNat ds : Int),
        (match cm.1 with
         | some mm => (digitsToNat mm : Int)
         | none => 0), ampm)
  else none

/-- The 12-hour pattern of parseTime, with the greedy one-or-two digit
group: two digits are preferred, backtracking to one. -/
def match12 (s : Str) : Option (Int × Int × Option Str) :=
  match m12At s 2 with
  | some r => some r
  | none => m12At s 1

/-- Anchored 24-hour pattern attempt with a fixed leading digit count. -/
def m24At (s : Str) (ndig : Nat) : Option (Int × Int) :=
  let ds := s.take ndig
  if ds.length = ndig ∧ ds.all isDigitCh then
    match s.drop ndig with
    | ':' :: d1 :: d2 :: [] =>
      if isDigitCh d1 ∧ isDigitCh d2 then
        some ((digitsToNat ds : Int), (digitsToNat [d1, d2] : Int))
      else none
    | _ => none
  else none

/-- The 24-hour pattern of parseTime. -/
def match24 (s : Str) : Option (Int × Int) :=
  match m24At s 2 with
  | some r => some r
  | none => m24At s 1

/-- Model of parseTime of generator.js: returns the pair hour, minute, or
`none` for out-of-range or unrecognized text.  A 12-hour match whose range
check fails falls through to the 24-hour pattern, as in the source. -/
def parseTime (timeStr : Str) : Option (Int × Int) :=
  let str := trimStr (toLowerStr timeStr)
  let v12 : Option (Int × Int) :=
    match match12 str with
    | some (h, m, ampm) =>
      let h1 := if ampm = some "pm".data ∧ h < 12 then h + 12 else h
      let h2 := if ampm = some "am".data ∧ h1 = 12 then 0 else h1
      if 0 ≤ h2 ∧ h2 ≤ 23 ∧ 0 ≤ m ∧ m ≤ 59 then some (h2, m) else none
    | none => none
  match v12 with
  | some v => some v
  | none =>
    match match24 str with
    | some (h, m) =>
      if 0 ≤ h ∧ h ≤ 23 ∧ 0 ≤ m ∧ m ≤ 59 then some (h, m) else none
    | none => none

/-- Unanchored capture of the at-time pattern starting exactly here: one or
two digits (greedy), an optional colon-minutes pair, greedy whitespace, an
optional meridiem; nothing follows the group, so no backtracking occurs. -/
def timeCaptureAt (t : Str) : Option Str :=
  let ds := (t.takeWhile isDigitCh).take 2
  if ds.isEmpty then none
  else
    let rest := t.drop ds.length
    let cm : Str × Str :=
      match rest with
      | ':' :: d1 :: d2 :: r2 =>
        if isDigitCh d1 ∧ isDigitCh d2 then ([':', d1, d2], r2) else ([], rest)
      | _ => ([], rest)
    let wsPart := cm.2.takeWhile isWs
    let rest3 := cm.2.drop wsPart.length
    let ampmPart : Str :=
      match rest3 with
      | 'a' :: 'm' :: _ => "am".data
      | 'p' :: 'm' :: _ => "pm".data
      | _ => []
    some (ds ++ cm.1 ++ wsPart ++ ampmPart)

/-- Attempt of the at-time pattern at one position: the literal at, one or
more whitespace characters, then the time capture. -/
def atTimeAt (t : Str) : Option Str :=
  match t with
  | 'a' :: 't' :: rest =>
    if (rest.takeWhile isWs).isEmpty then none
    else timeCaptureAt (rest.dropWhile isWs)
  | _ => none

/-- Leftmost match of the at-time pattern, returning the captured time
text. -/
def regexAtTime : Str → Option Str
  | [] => none
  | c :: rest =>
    match atTimeAt (c :: rest) with
    | some cap => some cap
    | none => regexAtTime rest

/-- Attempt of the every-N pattern at one position: the literal every,
whitespace, digits (captured), whitespace, then the unit word. -/
def everyNAt (unit : Str) (t : Str) : Option Str :=
  if "every".data.isPrefixOf t then
    let r1 := t.drop 5
    if (r1.takeWhile isWs).isEmpty then none
    else
      let r2 := r1.dropWhile isWs
      let ds := r2.takeWhile isDigitCh
      if ds.isEmpty then none
      else
        let r3 := r2.drop ds.length
        if (r3.takeWhile isWs).isEmpty then none
        else
          let r4 := r3.dropWhile isWs
          if unit.isPrefixOf r4 then some ds else none
  else none

/-- Leftmost match of the every-N pattern for a given unit word. -/
def scanEveryN (unit : Str) : Str → Option Str
  | [] => none
  | c :: rest =>
    match everyNAt unit (c :: rest) with
    | some ds => some ds
    | none => scanEveryN unit rest

/-- Attempt of the every-day pattern at one position. -/
def everyDayAt (t : Str) : Bool :=
  if "every".data.isPrefixOf t then
    let r1 := t.drop 5
    if (r1.takeWhile isWs).isEmpty then false
    else "day".data.isPrefixOf (r1.dropWhile isWs)
  else false

/-- Leftmost test of the every-day pattern. -/
def scanEveryDay : Str → Bool
  | [] => false
  | c :: rest => everyDayAt (c :: rest) || scanEveryDay rest

/-- Attempt of the on-the-Nth pattern at one position: the literal on,
whitespace, an optional literal the with whitespace, then one or two
captured digits; the ordinal suffix and trailing of are unconstrained
optional groups. -/
def onDomAt (t : Str) : Option Str :=
  if "on".data.isPrefixOf t then
    let r1 := t.drop 2
    if (r1.takeWhile isWs).isEmpty then none
    else
      let r2 := r1.dropWhile isWs
      let r3 := if "the".data.isPrefixOf r2 ∧ ¬((r2.drop 3).takeWhile isWs).isEmpty
        then (r2.drop 3).dropWhile isWs else r2
      let ds := (r3.takeWhile isDigitCh).take 2
      if ds.isEmpty then none else some ds
  else none

/-- Leftmost match of the on-the-Nth pattern. -/
def scanOnDom : Str → Option Str
  | [] => none
  | c :: rest =>
    match onDomAt (c :: rest) with
    | some ds => some ds
    | none => scanOnDom rest

/-- Attempt of the in-month pattern at one position: the literal in,
whitespace, then the month name. -/
def inMonthAt (name t : Str) : Bool :=
  if "in".data.isPrefixOf t then
    let r1 := t.drop 2
    if (r1.takeWhile isWs).isEmpty then false
    else name.isPrefixOf (r1.dropWhile isWs)
  else false

/-- Leftmost test of the in-month pattern for one name. -/
def scanInMonth (name : Str) : Str → Bool
  | [] => false
  | c :: rest => inMonthAt name (c :: rest) || scanInMonth name rest

/-- Attempt of the day-range pattern at one position: a word, whitespace,
one of the three separators through, to, or a hyphen (tried in that order),
whitespace, then a second word; both words are captured. -/
def dayRangeAt (t : Str) : Option (Str × Str) :=
  let w1 := t.takeWhile isWordCh
  if w1.isEmpty then none
  else
    let r1 := t.drop w1.length
    if (r1.takeWhile isWs).isEmpty then none
    else
      let r2 := r1.dropWhile isWs
      let sep : Option Nat :=
        if "through".data.isPrefixOf r2 then some 7
        else if "to".data.isPrefixOf r2 then some 2
        else if "-".data.isPrefixOf r2 then some 1
        else none
      match sep with
      | none => none
      | some n =>
        let r3 := r2.drop n
        if (r3.takeWhile isWs).isEmpty then none
        else
          let r4 := r3.dropWhile isWs
          let w2 := r4.takeWhile isWordCh
          if w2.isEmpty then none else some (w1, w2)

/-- Leftmost match of the day-range pattern. -/
def scanDayRange : Str → Option (Str × Str)
  | [] => none
  | c :: rest =>
    match dayRangeAt (c :: rest) with
    | some r => some r
    | none => scanDayRange rest

/-- Description text of a successful generate result. -/
def genDescription (text : Str) : Str :=
  "Generated from: \"".data ++ text ++ "\"".data

/-- Direct phrase-table tier of generate: the first table entry equal to or
contained in the input wins.  When an at-time clause is also present the
source guards the minute and hour overwrite by the comparison of the
iterated value against the table lookup of the same key, which can never
differ; both branches are transcribed faithfully. -/
def genDirectLoop (input text : Str) : List (Str × Str) → Option GenerateResult
  | [] => none
  | (pattern, cron) :: rest =>
    if input = pattern ∨ containsStr input pattern then
      let timeMatch := regexAtTime input
      let overwritten : Option GenerateResult :=
        match timeMatch with
        | some tcap =>
          if patternsLookup pattern ≠ some cron then
            match parseTime tcap with
            | some tm =>
              let parts := splitCh ' ' cron
              let parts2 := (parts.set 0 (intToStr tm.2)).set 1 (intToStr tm.1)
              some { success := true
                     expression := some (joinStr " ".data parts2)
                     description := some (genDescription text) }
            | none => none
          else none
        | none => none
      match overwritten with
      | some r => some r
      | none =>
        some { success := true
               expression := some cron
               description := some (genDescription text) }
    else genDirectLoop input text rest

/-- Five-field draft mutated by the compositional tier of generate. -/
structure GenDraft where
  minute : Str
  hour : Str
  dayOfMonth : Str
  month : Str
  dayOfWeek : Str
  matched : Bool

/-- Every-N-minutes pattern step of generate. -/
def stepEveryMinutes (input : Str) (g : GenDraft) : GenDraft :=
  match scanEveryN "minute".data input with
  | some ds => { g with minute := "*/".data ++ ds, matched := true }
  | none => g

/-- Every-N-hours pattern step of generate. -/
def stepEveryHours (input : Str) (g : GenDraft) : GenDraft :=
  match scanEveryN "hour".data input with
  | some ds => { g with minute := "0".data, hour := "*/".data ++ ds, matched := true }
  | none => g

/-- At-time pattern step of generate; an unparseable time is treated as no
match. -/
def stepAtTime (input : Str) (g : GenDraft) : GenDraft :=
  match regexAtTime input with
  | some tcap =>
    match parseTime tcap with
    | some tm =>
      { g with minute := intToStr tm.2, hour := intToStr tm.1, matched := true }
    | none => g
  | none => g

/-- Every-day pattern step of generate: defaults unset minute and hour to
zero. -/
def stepEveryDay (input : Str) (g : GenDraft) : GenDraft :=
  if scanEveryDay input then
    { g with
      minute := if g.minute = "*".data then "0".data else g.minute
      hour := if g.hour = "*".data then "0".data else g.hour
      matched := true }
  else g

/-- Day-name detector step of generate: the first day name of the table
contained in the input sets the day of week, defaulting unset minute to 0
and unset hour to 9. -/
def stepDayName (input : Str) (g : GenDraft) : GenDraft :=
  match (DAYS.find? (fun p => containsStr input p.1)).map (fun p => p.2) with
  | some n =>
    { g with
      dayOfWeek := intToStr n
      minute := if g.minute = "*".data then "0".data else g.minute
      hour := if g.hour = "*".data then "9".data else g.hour
      matched := true }
  | none => g

/-- On-the-Nth pattern step of generate: a captured day between 1 and 31
sets the day of month, defaulting unset minute and hour to zero. -/
def stepOnDom (input : Str) (g : GenDraft) : GenDraft :=
  match scanOnDom input with
  | some ds =>
    let day : Int := (digitsToNat ds : Int)
    if 1 ≤ day ∧ day ≤ 31 then
      { g with
        dayOfMonth := intToStr day
        minute := if g.minute = "*".data then "0".data else g.minute
        hour := if g.hour = "*".data then "0".data else g.hour
        matched := true }
    else g
  | none => g

/-- In-month pattern step of generate. -/
def stepInMonth (input : Str) (g : GenDraft) : GenDraft :=
  match (MONTHS.find? (fun p => scanInMonth p.1 input)).map (fun p => p.2) with
  | some n => { g with month := intToStr n, matched := true }
  | none => g

/-- Day-range pattern step of generate: both captured words must be day
names. -/
def stepDayRange (input : Str) (g : GenDraft) : GenDraft :=
  match scanDayRange input with
  | some pr =>
    match daysLookup pr.1, daysLookup pr.2 with
    | some s, some e =>
      { g with
        dayOfWeek := intToStr s ++ "-".data ++ intToStr e
        minute := if g.minute = "*".data then "0".data else g.minute
        hour := if g.hour = "*".data then "9".data else g.hour
        matched := true }
    | _, _ => g
  | none => g

/-- Model of generate of generator.js: lowercase and trim the input, try the
direct phrase table, then run the battery of compositional patterns in
source order over a wildcard draft. -/
def generate (text : Str) : GenerateResult :=
  let input := trimStr (toLowerStr text)
  match genDirectLoop input text PATTERNS with
  | some r => r
  | none =>
    let g0 : GenDraft :=
      ⟨"*".data, "*".data, "*".data, "*".data, "*".data, false⟩
    let g := stepDayRange input (stepInMonth input (stepOnDom input
      (stepDayName input (stepEveryDay input (stepAtTime input
        (stepEveryHours input (stepEveryMinutes input g0)))))))
    if g.matched then
      { success := true
        expression := some (g.minute ++ " ".data ++ g.hour ++ " ".data ++
          g.dayOfMonth ++ " ".data ++ g.month ++ " ".data ++ g.dayOfWeek)
        description := some (genDescription text) }
    else
      { success := false
        error := some "Could not parse the description".data
        suggestion := some "Try patterns like: \"every 5 minutes\", \"at 3pm on weekdays\", \"every monday at 9am\"".data }

theorem mem_setAdd (s : List JsNum) (y x : JsNum) :
    x ∈ setAdd s y ↔ x ∈ s ∨ x = y := by
  unfold setAdd
  by_cases h : s.contains y
  · simp only [h, if_true]
    constructor
    · exact fun hx => Or.inl hx
    · rintro (hx | rfl)
      · exact hx
      · exact List.elem_iff.mp h
  · have h2 : y ∉ s := fun hm => h (List.elem_iff.mpr hm)
    simp [h2]

theorem mem_foldl_setAdd (l : List JsNum) :
    ∀ (s : List JsNum) (x : JsNum), x ∈ l.foldl setAdd s ↔ x ∈ s ∨ x ∈ l := by
  induction l with
  | nil => simp
  | cons y ys ih =>
    intro s x
    simp only [List.foldl_cons]
    rw [ih, mem_setAdd, List.mem_cons]
    tauto

theorem mem_sortInsert (x y : JsNum) (l : List JsNum) :
    x ∈ sortInsert y l ↔ x = y ∨ x ∈ l := by
  induction l with
  | nil => simp [sortInsert]
  | cons z zs ih =>
    simp only [sortInsert]
    by_cases h : JsNum.gt z y
    · simp only [h, if_true, List.mem_cons]
    · simp only [h, Bool.false_eq_true, if_false, List.mem_cons, ih]
      tauto

theorem mem_jsSort (l : List JsNum) (x : JsNum) : x ∈ jsSort l ↔ x ∈ l := by
  suffices h : ∀ acc, x ∈ l.foldl (fun a b => sortInsert b a) acc ↔ x ∈ acc ∨ x ∈ l by
    simpa [jsSort] using h []
  induction l with
  | nil => simp
  | cons y ys ih =>
    intro acc
    simp only [List.foldl_cons]
    rw [ih, mem_sortInsert, List.mem_cons]
    tauto

theorem parseMain_shape (orig t : Str) (p : ParsedExpr)
    (h : parseMain orig t = some p) :
    (p.fields = none ∧ p.valid = false) ∨
    (∃ flds : CronFields, p.fields = some flds ∧
      p.errors = (fieldPairs flds).filterMap
        (fun pr => if pr.2.outOfRange.isEmpty then none
          else some (rangeErrMsg pr.1 pr.2)) ∧
      p.valid = p.errors.isEmpty) := by
  simp only [parseMain] at h
  split at h
  · injection h with h2
    subst h2
    left
    exact ⟨rfl, rfl⟩
  · split at h
    case _ g0 g1 g2 g3 g4 gtl heq =>
      cases h0 : parseField g0 FIELDS.minute with
      | none => rw [h0] at h; cases h
      | some p0 =>
        rw [h0] at h
        rw [Option.some_bind] at h
        cases h1 : parseField g1 FIELDS.hour with
        | none => rw [h1] at h; cases h
        | some p1 =>
          rw [h1] at h
          rw [Option.some_bind] at h
          cases h2 : parseField g2 FIELDS.dayOfMonth with
          | none => rw [h2] at h; cases h
          | some p2 =>
            rw [h2] at h
            rw [Option.some_bind] at h
            cases h3 : parseField g3 FIELDS.month with
            | none => rw [h3] at h; cases h
            | some p3 =>
              rw [h3] at h
              rw [Option.some_bind] at h
              cases h4 : parseField g4 FIELDS.dayOfWeek with
              | none => rw [h4] at h; cases h
              | some p4 =>
                rw [h4] at h
                rw [Option.some_bind] at h
                injection h with h5
                subst h5
                right
                exact ⟨⟨p0, p1, p2, p3, p4⟩, rfl, rfl, rfl⟩
    case _ => cases h

theorem parse_shape (e : Str) (p : ParsedExpr) (h : parse e = some p) :
    (p.isReboot = true ∧ p.valid = true ∧ p.fields = none) ∨
    (p.fields = none ∧ p.valid = false) ∨
    (∃ flds : CronFields, p.fields = some flds ∧
      p.errors = (fieldPairs flds).filterMap
        (fun pr => if pr.2.outOfRange.isEmpty then none
          else some (rangeErrMsg pr.1 pr.2)) ∧
      p.valid = p.errors.isEmpty) := by
  simp only [parse] at h
  split at h
  · split at h
    · injection h with h2
      subst h2
      left
      exact ⟨rfl, rfl, rfl⟩
    · split at h
      · rcases parseMain_shape _ _ _ h with h1 | h2
        · right; left; exact h1
        · right; right; exact h2
      · injection h with h2
        subst h2
        right; left
        exact ⟨rfl, rfl⟩
  · rcases parseMain_shape _ _ _ h with h1 | h2
    · right; left; exact h1
    · right; right; exact h2

/-- Fixed test calendar used by concrete scheduler evaluations: every minute
index sits at minute 0 of hour 0 on day 1 of month 1, a Sunday. -/
def cal0 : Calendar := ⟨fun _ => 0, fun _ => 0, fun _ => 1, fun _ => 1, fun _ => 7⟩

/-- C1, amended.  For every expression, count, calendar and start minute on
which evaluation terminates (equivalently, on which parse terminates: the
zero-step field of C5 is the only divergence), getNextOccurrences returns a
list of at most count minute indices, strictly increasing, each strictly
after the start minute (the first candidate is the minute after the one
containing `from`, so the current partial minute is always skipped); and the
list is empty whenever the expression parses invalid or is the @reboot
sentinel. -/
theorem claim_C1_amended (e : Str) (count : Nat) (cal : Calendar) (fromMin : Nat)
    (l : List Nat) (h : getNextOccurrences e count cal fromMin = some l) :
    l.length ≤ count ∧ l.Pairwise (· < ·) ∧ (∀ t ∈ l, fromMin < t) ∧
    (∀ p, parse e = some p → (p.valid = false ∨ p.isReboot = true) → l = []) := by
  simp only [getNextOccurrences] at h
  split at h
  · cases h
  · rename_i parsed hp
    split at h
    · injection h with h2
      subst h2
      exact ⟨by simp, by simp, by simp, fun p _ _ => rfl⟩
    · rename_i hcond
      have hgood : parsed.valid = true ∧ parsed.isReboot = false := by
        rcases Bool.eq_false_or_eq_true parsed.valid with hv | hv <;>
          rcases Bool.eq_false_or_eq_true parsed.isReboot with hr | hr <;>
            simp [hv, hr] at hcond ⊢
      split at h
      · injection h with h2
        subst h2
        exact ⟨by simp, by simp, by simp, fun p _ _ => rfl⟩
      · rename_i flds hf
        injection h with h2
        subst h2
        refine ⟨schedLoop_length_le _ _ _ _, schedLoop_pairwise _ _ _ _, ?_, ?_⟩
        · intro t ht
          have := schedLoop_mem_ge _ _ _ _ t ht
          omega
        · intro p hp2 hbad
          rw [hp] at hp2
          injection hp2 with h3
          subst h3
          rcases hbad with hb | hb
          · rw [hgood.1] at hb; cases hb
          · rw [hgood.2] at hb; cases hb

/-- C1 counterexample.  The claim quantifies over every expression string,
but on the zero-step expression parseField never terminates (the stepped
loop never advances), so getNextOccurrences returns nothing at all rather
than a list; in the embedding the divergence is the value `none`. -/
theorem claim_C1_counterexample :
    getNextOccurrences "*/0 * * * *".data 5 cal0 0 = none := by decide

/-- Occurrence list of a concrete terminating run, for the C1 witness. -/
def occs0 : List Nat := (getNextOccurrences "* * * * *".data 2 cal0 0).getD []

/-- Witness for the amended C1 at a concrete expression, count, calendar and
start minute. -/
theorem claim_C1_witness : occs0.length ≤ 2 ∧ List.Pairwise (· < ·) occs0 := by
  have h := claim_C1_amended "* * * * *".data 2 cal0 0 occs0 (by decide)
  exact ⟨h.1, h.2.1⟩

/-- C2.  For every valid non-reboot parsed expression and every candidate
minute (arbitrary calendar and minute index), the scheduler candidate test
is the conjunction of minute, hour, day-clause and month membership, and the
day clause evaluates by the POSIX rule: both raw day texts exactly the
wildcard makes it true; only dayOfMonth wildcard makes it day-of-week
membership; only dayOfWeek wildcard makes it day-of-month membership; and
with neither wildcard it is the inclusive disjunction of the two
memberships. -/
theorem claim_C2 (e : Str) (p : ParsedExpr) (flds : CronFields) (cal : Calendar)
    (t : Nat) (hp : parse e = some p) (hv : p.valid = true)
    (hr : p.isReboot = false) (hf : p.fields = some flds) :
    (matchesAt flds cal t = true ↔
      (JsNum.int (cal.minute t) ∈ flds.minute.values ∧
       JsNum.int (cal.hour t) ∈ flds.hour.values ∧
       dayMatch flds (cal.day t) (cal.weekday t % 7) = true ∧
       JsNum.int (cal.month t) ∈ flds.month.values)) ∧
    (flds.dayOfMonth.raw = "*".data ∧ flds.dayOfWeek.raw = "*".data →
      dayMatch flds (cal.day t) (cal.weekday t % 7) = true) ∧
    (flds.dayOfMonth.raw = "*".data ∧ flds.dayOfWeek.raw ≠ "*".data →
      (dayMatch flds (cal.day t) (cal.weekday t % 7) = true ↔
        JsNum.int (cal.weekday t % 7) ∈ flds.dayOfWeek.values)) ∧
    (flds.dayOfMonth.raw ≠ "*".data ∧ flds.dayOfWeek.raw = "*".data →
      (dayMatch flds (cal.day t) (cal.weekday t % 7) = true ↔
        JsNum.int (cal.day t) ∈ flds.dayOfMonth.values)) ∧
    (flds.dayOfMonth.raw ≠ "*".data ∧ flds.dayOfWeek.raw ≠ "*".data →
      (dayMatch flds (cal.day t) (cal.weekday t % 7) = true ↔
        (JsNum.int (cal.day t) ∈ flds.dayOfMonth.values ∨
         JsNum.int (cal.weekday t % 7) ∈ flds.dayOfWeek.values))) := by
  refine ⟨?_, ?_, ?_, ?_, ?_⟩
  · simp only [matchesAt, Bool.and_eq_true]
    constructor
    · rintro ⟨⟨⟨hm, hh⟩, hd⟩, hmo⟩
      exact ⟨List.elem_iff.mp hm, List.elem_iff.mp hh, hd, List.elem_iff.mp hmo⟩
    · rintro ⟨hm, hh, hd, hmo⟩
      exact ⟨⟨⟨List.elem_iff.mpr hm, List.elem_iff.mpr hh⟩, hd⟩, List.elem_iff.mpr hmo⟩
  · rintro ⟨h1, h2⟩
    simp [dayMatch, h1, h2]
  · rintro ⟨h1, h2⟩
    simp only [dayMatch, h1, h2]
    simp [h2, List.elem_iff]
  · rintro ⟨h1, h2⟩
    simp only [dayMatch, h1, h2]
    simp [h1, List.elem_iff]
  · rintro ⟨h1, h2⟩
    simp only [dayMatch, h1, h2]
    simp [h1, h2, List.elem_iff, Bool.or_eq_true]

/-- Inhabitants used by concrete claim witnesses to name the computed parse
results. -/
def emptyParsedField : ParsedField := ⟨[], [], [], []⟩

/-- Default parsed-expression record for getD extraction in witnesses. -/
def emptyParsedExpr : ParsedExpr := ⟨false, false, none, [], [], none, none, none⟩

/-- Default field map for getD extraction in witnesses. -/
def emptyCronFields : CronFields :=
  ⟨emptyParsedField, emptyParsedField, emptyParsedField, emptyParsedField,
   emptyParsedField⟩

/-- Parse result of the expression 0 0 * * 1, for the C2 witness. -/
def p01 : ParsedExpr := (parse "0 0 * * 1".data).getD emptyParsedExpr

/-- Field map of the expression 0 0 * * 1, for the C2 witness. -/
def f01 : CronFields := p01.fields.getD emptyCronFields

/-- Witness for C2 at a concrete expression, calendar and candidate: the
dayOfMonth field of 0 0 * * 1 is the wildcard and the dayOfWeek field is
not, so the day clause is day-of-week membership there. -/
theorem claim_C2_witness :
    dayMatch f01 (cal0.day 0) (cal0.weekday 0 % 7) = true ↔
      JsNum.int (cal0.weekday 0 % 7) ∈ f01.dayOfWeek.values :=
  (claim_C2 "0 0 * * 1".data p01 f01 cal0 0 (by decide) (by decide) (by decide)
    (by decide)).2.2.1 ⟨by decide, by decide⟩

theorem foldl_bind_none (g : SegState → Str → Option SegState) (l : List Str) :
    l.foldl (fun acc seg => acc.bind (fun s => g s seg)) none = none := by
  induction l with
  | nil => rfl
  | cons seg rest ih => simpa using ih

theorem processSegment_dow_no7 (st : SegState) (seg : Str)
    (hseg : (segmentParts seg).1 ≠ "*".data)
    (hst : JsNum.int 7 ∉ st.values) :
    ∀ st2, processSegment FIELDS.dayOfWeek st seg = some st2 →
      JsNum.int 7 ∉ st2.values := by
  intro st2 h
  simp only [processSegment] at h
  rw [if_neg hseg] at h
  split at h
  · -- range branch
    split at h
    · cases h
    · rename_i visited hvis
      injection h with h2
      subst h2
      intro hmem
      rw [mem_foldl_setAdd] at hmem
      rcases hmem with hmem | hmem
      · exact hst hmem
      · rw [List.mem_map] at hmem
        obtain ⟨i, _, hi⟩ := hmem
        by_cases hc : i = 7 ∧ FIELDS.dayOfWeek.fname = FieldName.dayOfWeek
        · rw [if_pos hc] at hi
          cases hi
        · rw [if_neg hc] at hi
          injection hi with hi2
          exact hc ⟨by omega, by decide⟩
  · -- single-value branch
    injection h with h2
    subst h2
    intro hmem
    dsimp only at hmem
    split at hmem
    · exact hst hmem
    · rw [mem_setAdd] at hmem
      rcases hmem with hmem | hmem
      · exact hst hmem
      · by_cases hc : jsParseInt (segmentParts seg).1 = JsNum.int 7 ∧
            FIELDS.dayOfWeek.fname = FieldName.dayOfWeek
        · rw [if_pos hc] at hmem
          cases hmem
        · rw [if_neg hc] at hmem
          exact hc ⟨hmem.symm, by decide⟩

theorem parseField_dow_no7_aux :
    ∀ (segs : List Str) (st : SegState),
      (∀ seg ∈ segs, (segmentParts seg).1 ≠ "*".data) →
      JsNum.int 7 ∉ st.values →
      ∀ st2, segs.foldl (fun acc seg =>
          acc.bind (fun s => processSegment FIELDS.dayOfWeek s seg)) (some st) =
          some st2 →
        JsNum.int 7 ∉ st2.values := by
  intro segs
  induction segs with
  | nil =>
    intro st _ hst st2 h
    injection h with h2
    subst h2
    exact hst
  | cons seg rest ih =>
    intro st hseg hst st2 h
    simp only [List.foldl_cons, Option.some_bind] at h
    cases hps : processSegment FIELDS.dayOfWeek st seg with
    | none =>
      rw [hps] at h
      rw [foldl_bind_none] at h
      cases h
    | some st1 =>
      rw [hps] at h
      exact ih st1 (fun s hs => hseg s (List.mem_cons_of_mem _ hs))
        (processSegment_dow_no7 st seg (hseg seg (List.mem_cons_self _ _)) hst st1 hps)
        st2 h

theorem parseField_dow_no7 (f : Str) (pf : ParsedField)
    (h : parseField f FIELDS.dayOfWeek = some pf)
    (hsegs : ∀ seg ∈ splitCh ',' (substNames FIELDS.dayOfWeek (toLowerStr f)),
      (segmentParts seg).1 ≠ "*".data) :
    JsNum.int 7 ∉ pf.values := by
  simp only [parseField] at h
  split at h
  · cases h
  · rename_i st hfold
    injection h with h2
    subst h2
    intro hmem
    rw [mem_jsSort] at hmem
    exact parseField_dow_no7_aux _ _ hsegs (by simp) st hfold hmem

/-- C3 counterexample.  The claim ends with the universal statement that 7
never occurs in a dayOfWeek values set, but the wildcard branch of
parseField inserts every integer from min to max without the 7-to-0
normalization, so the dayOfWeek values of 0 0 * * * contain 7. -/
theorem claim_C3_counterexample :
    (parse "0 0 * * *".data).map (fun p => p.fields.map
      (fun f => f.dayOfWeek.values.contains (JsNum.int 7))) = some (some true) := by
  decide

/-- C3, amended.  The expressions 0 0 * * 0 and 0 0 * * 7 parse to the
identical dayOfWeek values list containing exactly 0; a literal 7 in the
dayOfWeek field is inserted as 0 both standalone and as a range endpoint, so
7 never occurs in a dayOfWeek values set built from a field whose
comma-segments are all non-wildcard — the wildcard segment branch, however,
inserts 0 through 7 unnormalized. -/
theorem claim_C3_amended :
    ((parse "0 0 * * 0".data).map (fun p => p.fields.map
      (fun f => f.dayOfWeek.values)) = some (some [JsNum.int 0])) ∧
    ((parse "0 0 * * 7".data).map (fun p => p.fields.map
      (fun f => f.dayOfWeek.values)) = some (some [JsNum.int 0])) ∧
    (∀ (f : Str) (pf : ParsedField), parseField f FIELDS.dayOfWeek = some pf →
      (∀ seg ∈ splitCh ',' (substNames FIELDS.dayOfWeek (toLowerStr f)),
        (segmentParts seg).1 ≠ "*".data) →
      JsNum.int 7 ∉ pf.values) :=
  ⟨by decide, by decide, parseField_dow_no7⟩

/-- Parsed field of the range 5-7 in the dayOfWeek position, for the C3
witness. -/
def pf57 : ParsedField :=
  (parseField "5-7".data FIELDS.dayOfWeek).getD emptyParsedField

/-- Witness for the amended C3 at the concrete range field 5-7, whose single
segment is not the wildcard. -/
theorem claim_C3_witness : JsNum.int 7 ∉ pf57.values :=
  claim_C3_amended.2.2 "5-7".data pf57 (by decide) (by decide)

/-- C4.  The claim (and the spec) say a direct phrase match combined with an
at-time clause overwrites the minute and hour fields of the template, but
the overwrite branch is guarded by the comparison of the iterated table
value against the table lookup of the same key, which never differ, so the
branch is dead code: the input weekdays at 3pm returns the unmodified
template 0 9 * * 1-5, not 0 15 * * 1-5. -/
theorem claim_C4 :
    (generate "weekdays at 3pm".data).success = true ∧
    (generate "weekdays at 3pm".data).expression = some "0 9 * * 1-5".data ∧
    (generate "weekdays at 3pm".data).expression ≠ some "0 15 * * 1-5".data := by
  decide

/-- C5.  The claim (and the spec) say an explicit zero step is treated as
step one; in the source the step text 0 is truthy, so stepNum is the number
0 and the loop for i from min while i is at most max stepping by 0 never
advances: parseField diverges on a zero-step segment, modeled by the value
`none`, and the final conjunct shows no amount of fuel makes the stepped
loop of the minute field terminate. -/
theorem claim_C5 :
    parseField "*/0".data FIELDS.minute = none ∧
    parseField "1-10/0".data FIELDS.minute = none ∧
    (∀ fuel : Nat, loopIntsF 59 0 fuel 0 = none) := by
  refine ⟨by decide, by decide, fun fuel =>
    loopIntsF_none_of_nonpos 59 0 (by omega) fuel 0 (by omega)⟩

/-- Witness for C5 at one concrete fuel value of the zero-step minute
loop. -/
theorem claim_C5_witness : loopIntsF 59 0 100 0 = none :=
  claim_C5.2.2 100

/-- C6 counterexample.  The claim says an already-range-syntax token such as
2-6 is left unchanged, but parseInt of 2-6 is 2 (leading digits), which is
not NaN, so the token is collapsed to the remapped scalar 1. -/
theorem claim_C6_counterexample :
    (toCron "cron(0 9 * * 2-6 *)".data "aws".data).map
        (fun r => (r.success, r.result)) = some (true, some "0 9 * * 1".data) ∧
    (toCron "cron(0 9 * * 2-6 *)".data "aws".data).map (fun r => r.result) ≠
      some (some "0 9 * * 2-6".data) := by
  decide

/-- C6, amended.  Each comma-separated day-of-week token is remapped through
parseInt: a token with no leading digits (parseInt NaN, for example MON) is
left unchanged, while any token with a leading number n — including range
syntax such as 2-6 — is replaced by the remapped scalar, 0 when n is 1 and
n - 1 otherwise, so range tokens are collapsed rather than preserved. -/
theorem claim_C6_amended :
    (∀ d : Str, jsParseInt d = JsNum.nan → awsDowMapToken d = d) ∧
    (∀ (d : Str) (n : Int), jsParseInt d = JsNum.int n →
      awsDowMapToken d = intToStr (if n = 1 then 0 else n - 1)) ∧
    ((toCron "cron(0 9 * * 2,6 *)".data "aws".data).map (fun r => r.result) =
      some (some "0 9 * * 1,5".data)) ∧
    ((toCron "cron(0 9 * * MON *)".data "aws".data).map (fun r => r.result) =
      some (some "0 9 * * MON".data)) := by
  refine ⟨?_, ?_, by decide, by decide⟩
  · intro d hd
    unfold awsDowMapToken
    rw [hd]
  · intro d n hd
    unfold awsDowMapToken
    rw [hd]

/-- Witness for the amended C6 at two concrete tokens: a name token is kept,
a range token is collapsed. -/
theorem claim_C6_witness :
    awsDowMapToken "mon".data = "mon".data ∧
      awsDowMapToken "2-6".data = "1".data := by
  constructor
  · exact claim_C6_amended.1 "mon".data (by decide)
  · have h := claim_C6_amended.2.1 "2-6".data 2 (by decide)
    rw [h]
    decide

/-- C7 counterexample.  The claim says raw stores the post-name-substitution
text, so parseField of mon-fri would store 1-5; the source stores the
original argument verbatim, so raw is mon-fri. -/
theorem claim_C7_counterexample :
    (parseField "mon-fri".data FIELDS.dayOfWeek).map ParsedField.raw =
      some "mon-fri".data ∧
    (parseField "mon-fri".data FIELDS.dayOfWeek).map ParsedField.raw ≠
      some "1-5".data := by
  decide

/-- C7, amended.  The raw property of a parsed field is the original field
text verbatim — no lowercasing and no name substitution — for every field
string and field definition. -/
theorem claim_C7_amended (field : Str) (d : FieldDef) (pf : ParsedField)
    (h : parseField field d = some pf) : pf.raw = field := by
  simp only [parseField] at h
  split at h
  · cases h
  · injection h with h2
    subst h2
    rfl

/-- Parsed field of mon-fri in the dayOfWeek position, for the C7 witness. -/
def pfMF : ParsedField :=
  (parseField "mon-fri".data FIELDS.dayOfWeek).getD emptyParsedField

/-- Witness for the amended C7 at the concrete field mon-fri. -/
theorem claim_C7_witness : pfMF.raw = "mon-fri".data :=
  claim_C7_amended "mon-fri".data FIELDS.dayOfWeek pfMF (by decide)

/-- C8.  The round-trip property fails on the code: generate of the text
every 0 minutes succeeds with the expression */0 * * * *, and parse of that
expression never returns (the zero-step loop of C5), so it never yields
valid true; in the embedding the divergence is the value `none`. -/
theorem claim_C8 :
    (generate "every 0 minutes".data).success = true ∧
    (generate "every 0 minutes".data).expression = some "*/0 * * * *".data ∧
    parse "*/0 * * * *".data = none := by
  decide

theorem filterMap_ite_length {α β : Type} (c : α → Bool) (g : α → β) (l : List α) :
    (l.filterMap (fun a => if c a then none else some (g a))).length =
      (l.filter (fun a => !c a)).length := by
  induction l with
  | nil => rfl
  | cons a as ih =>
    by_cases h : c a
    · simp [List.filterMap_cons, List.filter_cons, h, ih]
    · simp [List.filterMap_cons, List.filter_cons, h, ih]

theorem filterMap_ite_nil_iff {α β : Type} (c : α → Bool) (g : α → β) (l : List α) :
    l.filterMap (fun a => if c a then none else some (g a)) = [] ↔
      l.all c = true := by
  induction l with
  | nil => simp
  | cons a as ih =>
    by_cases h : c a
    · simp [List.filterMap_cons, h, ih]
    · simp [List.filterMap_cons, h]

/-- C9.  For every parsed expression with a field map, the error list holds
exactly one entry per field whose outOfRange list is nonempty, and validity
is equivalent to all five outOfRange lists being empty (so siblings of a bad
field are still parsed and present); concretely, 0 9-99 * * * is invalid
with the single hour error, 99 recorded in the hour outOfRange list, the
in-range hours 9 through 23 still returned, and all sibling fields
populated. -/
theorem claim_C9 :
    (∀ (e : Str) (p : ParsedExpr) (flds : CronFields), parse e = some p →
      p.fields = some flds →
      p.errors.length =
        ((fieldPairs flds).filter (fun pr => !pr.2.outOfRange.isEmpty)).length ∧
      (p.valid = true ↔
        (fieldPairs flds).all (fun pr => pr.2.outOfRange.isEmpty) = true)) ∧
    ((parse "0 9-99 * * *".data).map (fun p => (p.valid, p.errors)) =
      some (false, ["hour: values out of range (99)".data])) ∧
    ((parse "0 9-99 * * *".data).map (fun p => p.fields.map (fun f =>
        (f.hour.outOfRange, f.hour.values, f.minute.values))) =
      some (some ([JsNum.int 99],
        [JsNum.int 9, JsNum.int 10, JsNum.int 11, JsNum.int 12, JsNum.int 13,
         JsNum.int 14, JsNum.int 15, JsNum.int 16, JsNum.int 17, JsNum.int 18,
         JsNum.int 19, JsNum.int 20, JsNum.int 21, JsNum.int 22, JsNum.int 23],
        [JsNum.int 0]))) ∧
    ((parse "0 9-99 * * *".data).map (fun p => p.fields.map (fun f =>
        (f.dayOfMonth.values.length, f.month.values.length,
         f.dayOfWeek.values.length))) = some (some (31, 12, 8))) := by
  refine ⟨?_, by decide, by decide, by decide⟩
  · intro e p flds hp hf
    rcases parse_shape e p hp with ⟨_, _, hn⟩ | ⟨hn, _⟩ | ⟨flds2, hf2, herr, hval⟩
    · rw [hf] at hn; cases hn
    · rw [hf] at hn; cases hn
    · rw [hf] at hf2
      injection hf2 with he
      subst he
      constructor
      · rw [herr, filterMap_ite_length]
      · rw [hval, herr]
        rw [List.isEmpty_iff]
        exact filterMap_ite_nil_iff _ _ _

/-- Parse result of 0 9-99 * * *, for the C9 witness. -/
def p99 : ParsedExpr := (parse "0 9-99 * * *".data).getD emptyParsedExpr

/-- Field map of 0 9-99 * * *, for the C9 witness. -/
def f99 : CronFields := p99.fields.getD emptyCronFields

/-- Witness for C9 at the concrete expression 0 9-99 * * *: exactly one
accumulated error. -/
theorem claim_C9_witness : p99.errors.length = 1 := by
  have h := (claim_C9.1 "0 9-99 * * *".data p99 f99 (by decide) (by decide)).1
  rw [h]
  decide

/-- C10.  Parse marks an expression invalid only for a structural error
(wrong field count or unknown alias, both of which carry no field map) or
some out-of-range literal; conversely any input that reaches field parsing
with all five outOfRange lists empty is valid, and concretely
foo * * * * is valid with minute values containing NaN. -/
theorem claim_C10 :
    (∀ (e : Str) (p : ParsedExpr), parse e = some p → p.valid = false →
      p.fields = none ∨
        ∃ flds : CronFields, p.fields = some flds ∧
          (flds.minute.outOfRange ≠ [] ∨ flds.hour.outOfRange ≠ [] ∨
           flds.dayOfMonth.outOfRange ≠ [] ∨ flds.month.outOfRange ≠ [] ∨
           flds.dayOfWeek.outOfRange ≠ [])) ∧
    (∀ (e : Str) (p : ParsedExpr) (flds : CronFields), parse e = some p →
      p.fields = some flds →
      flds.minute.outOfRange = [] → flds.hour.outOfRange = [] →
      flds.dayOfMonth.outOfRange = [] → flds.month.outOfRange = [] →
      flds.dayOfWeek.outOfRange = [] → p.valid = true) ∧
    (parse "foo * * * *".data).map
        (fun p => (p.valid, p.fields.map (fun f => f.minute.values))) =
      some (true, some [JsNum.nan]) := by
  refine ⟨?_, ?_, by decide⟩
  · intro e p hp hv
    rcases parse_shape e p hp with ⟨_, hvt, _⟩ | ⟨hn, _⟩ | ⟨flds, hf, herr, hval⟩
    · rw [hvt] at hv; cases hv
    · left; exact hn
    · right
      refine ⟨flds, hf, ?_⟩
      by_contra hcon
      push_neg at hcon
      obtain ⟨k1, k2, k3, k4, k5⟩ := hcon
      rw [herr, hv] at hval
      have hnil : (fieldPairs flds).filterMap
          (fun pr => if pr.2.outOfRange.isEmpty then none
            else some (rangeErrMsg pr.1 pr.2)) = [] := by
        simp [fieldPairs, k1, k2, k3, k4, k5]
      rw [hnil] at hval
      cases hval
  · intro e p flds hp hf k1 k2 k3 k4 k5
    rcases parse_shape e p hp with ⟨_, _, hn⟩ | ⟨hn, _⟩ | ⟨flds2, hf2, herr, hval⟩
    · rw [hf] at hn; cases hn
    · rw [hf] at hn; cases hn
    · rw [hf] at hf2
      injection hf2 with he
      subst he
      rw [hval, herr]
      simp [fieldPairs, k1, k2, k3, k4, k5]

/-- Parse result of foo * * * *, for the C10 witness. -/
def pFoo : ParsedExpr := (parse "foo * * * *".data).getD emptyParsedExpr

/-- Field map of foo * * * *, for the C10 witness. -/
def fFoo : CronFields := pFoo.fields.getD emptyCronFields

/-- Witness for C10 at the concrete input foo * * * *: no token is
out of range, so the expression is valid. -/
theorem claim_C10_witness : pFoo.valid = true :=
  claim_C10.2.1 "foo * * * *".data pFoo fFoo (by decide) (by decide) (by decide)
    (by decide) (by decide) (by decide) (by decide)

end CronWtf
